import Mathlib

/-!
Shallow embedding of the `ScheduleOnDirective` (schedule-on directive) and the
demo application's custom `instant` render strategy, together with proofs of
the specified properties.

The embedded source functions are:
* `notificationToTemplateName` — the template-name policy object handed to
  `createTemplateManager` (all four notification kinds map to `nextTpl`);
* the notification stream built in `ngOnInit`:
  `of({ value: true, hasValue: true, kind: Next, error: false, complete: false })`;
* `createViewContext` and `updateViewContext`;
* `ngOnDestroy` / the rxjs `Subscription` it unsubscribes;
* the `instant` strategy's `behavior: (work) => (o$) => { work(); return o$; }`;
* the strategy handler `coerceAllFactory(() => new ReplaySubject(1))` and the
  view/context manager of `createTemplateManager`, which live outside the
  provided sources and are modelled from the specification where noted.
-/

namespace ScheduleOn

/-- The four notification kinds of `RxNotificationKind`
(`@rx-angular/cdk/notifications`): suspense, next, error, complete. -/
inductive RxNotificationKind where
  | Suspense
  | Next
  | Error
  | Complete
  deriving DecidableEq, Repr

/-- A normalized notification record, with the fields of the object literal
built in `ngOnInit`: `value`, `hasValue`, `kind`, `error`, `complete`. -/
structure RxNotification (α : Type) where
  value : α
  hasValue : Bool
  kind : RxNotificationKind
  error : Bool
  complete : Bool
  deriving DecidableEq, Repr

/-- The constant `RxScheduleOnTemplateNames.next` from the directive source,
whose value is the string `nextTpl`. -/
def RxScheduleOnTemplateNames.next : String := "nextTpl"

/-- The `notificationToTemplateName` policy object of
`ScheduleOnDirective._createTemplateManager`: every notification kind is
mapped (by a constant thunk) to `RxScheduleOnTemplateNames.next`. -/
def notificationToTemplateName : RxNotificationKind → String
  | RxNotificationKind.Suspense => RxScheduleOnTemplateNames.next
  | RxNotificationKind.Next => RxScheduleOnTemplateNames.next
  | RxNotificationKind.Error => RxScheduleOnTemplateNames.next
  | RxNotificationKind.Complete => RxScheduleOnTemplateNames.next

/-- The template manager resolves a notification by applying the policy to its
kind only: the notification's value plays no part. -/
def resolveTemplate {α : Type} (n : RxNotification α) : String :=
  notificationToTemplateName n.kind

/-- The one notification object constructed in `ngOnInit`:
`{ value: true, hasValue: true, kind: RxNotificationKind.Next, error: false,
complete: false }`. -/
def ngOnInitNotification : RxNotification Bool :=
  { value := true
    hasValue := true
    kind := RxNotificationKind.Next
    error := false
    complete := false }

/-- The directive's input bindings: a potential bound source (the `scheduleOn`
binding), the `scheduleOnParent` flag, the `scheduleOnPatchZone` flag and
whether a `scheduleOnRenderCallback` observer was configured. -/
structure DirectiveInputs (α : Type) where
  boundSource : List α
  renderParent : Bool
  patchZone : Bool
  hasRenderCallback : Bool
  deriving DecidableEq, Repr

/-- The notification stream handed to `templateManager.render` in `ngOnInit`.
The source builds it as `of({...})`, a single-element synchronous stream; no
input of the directive — in particular no bound source value — is read while
building it. -/
def ngOnInitRenderStream (α : Type) (_inputs : DirectiveInputs α) :
    List (RxNotification Bool) :=
  [ngOnInitNotification]

/-- A fixed example input configuration used to exhibit concrete behavior. -/
def exampleInputs : DirectiveInputs Nat :=
  { boundSource := [1, 2, 3]
    renderParent := true
    patchZone := true
    hasRenderCallback := false }

/-- The view context record produced for a template: `scheduleOn` and
`$implicit` carry the value, `$error`, `$complete`, `$suspense` are flags.
The field `implicit` embeds `$implicit`, `error` embeds `$error`,
`complete` embeds `$complete` and `suspense` embeds `$suspense`. -/
structure RxScheduleOnViewContext (T : Type) where
  scheduleOn : T
  implicit : T
  error : Bool
  complete : Bool
  suspense : Bool
  deriving DecidableEq, Repr

/-- The function `createViewContext` from the directive source: returns the
record
`{ scheduleOn: value, $implicit: value, $error: false, $complete: false,
$suspense: false }`. -/
def createViewContext {T : Type} (value : T) : RxScheduleOnViewContext T :=
  { scheduleOn := value
    implicit := value
    error := false
    complete := false
    suspense := false }

/-- The `instant` strategy's behavior from the demo app module:
`behavior: (work) => (o$) => { work(); return o$; }`. Side effects are made
explicit by threading a state `σ` through the work callback: the behavior
applies `work` to the incoming state once and hands back the observable
untouched. -/
def instantBehavior {σ Obs : Type} (work : σ → σ) (o : Obs) (s : σ) :
    σ × Obs :=
  (work s, o)

/-- Claim C4: template name resolution is a pure function of the notification
kind, and for every notification — whatever its kind or value — it returns the
single shared main template name `nextTpl`. -/
theorem resolveTemplate_constant_nextTpl (α : Type) (n : RxNotification α) :
    resolveTemplate n = "nextTpl" := by
  cases h : n.kind <;> simp [resolveTemplate, notificationToTemplateName, h,
    RxScheduleOnTemplateNames.next]

/-- Claim C8: for every value `v`, `createViewContext v` returns a context in
which `$implicit = v` and `scheduleOn = v`, while the `$error`, `$complete`
and `$suspense` flags are all false. -/
theorem createViewContext_fields (T : Type) (v : T) :
    (createViewContext v).implicit = v ∧
    (createViewContext v).scheduleOn = v ∧
    (createViewContext v).error = false ∧
    (createViewContext v).complete = false ∧
    (createViewContext v).suspense = false := by
  refine ⟨rfl, rfl, rfl, rfl, rfl⟩

/-- Claim C10: the `instant` strategy's behavior invokes the work callback
exactly once (the resulting effect state is `work s`, one application of
`work`) and returns the wrapped observable itself unchanged. -/
theorem instant_behavior_work_once_identity (σ Obs : Type) (work : σ → σ)
    (o : Obs) (s : σ) :
    instantBehavior work o s = (work s, o) := by
  rfl

/-- Claim C2: for every configuration of the directive's inputs, the stream
handed to the template manager's `render` call in `ngOnInit` is exactly one
Next notification with value `true` and `hasValue = true`; it is independent
of every input (so no bound source value is consumed), and it contains no
Suspense, Error or Complete notification. -/
theorem ngOnInit_stream_single_next (α : Type) (inputs : DirectiveInputs α) :
    ngOnInitRenderStream α inputs =
      [{ value := true
         hasValue := true
         kind := RxNotificationKind.Next
         error := false
         complete := false }] ∧
    (∀ inputs' : DirectiveInputs α,
      ngOnInitRenderStream α inputs = ngOnInitRenderStream α inputs') ∧
    (ngOnInitRenderStream α inputs).countP
      (fun n => n.kind == RxNotificationKind.Suspense) = 0 ∧
    (ngOnInitRenderStream α inputs).countP
      (fun n => n.kind == RxNotificationKind.Error) = 0 ∧
    (ngOnInitRenderStream α inputs).countP
      (fun n => n.kind == RxNotificationKind.Complete) = 0 := by
  refine ⟨rfl, fun _ => rfl, rfl, rfl, rfl⟩

/-- Claim C1 counterexample: at the concrete input configuration
`exampleInputs` (bound source `[1, 2, 3]`), the notification stream produced
on subscription contains no Suspense notification at all, refuting the claim
that exactly one Suspense notification is produced before the first Next. -/
theorem ngOnInit_stream_has_no_suspense_cex :
    ¬ ((ngOnInitRenderStream Nat exampleInputs).countP
        (fun n => n.kind == RxNotificationKind.Suspense) = 1) := by
  decide

/-- Claim C1 amended: for every bound source and input configuration, no
Suspense notification is ever produced; the stream produced synchronously on
subscription consists of exactly one Next notification, so in particular no
Suspense notification appears before, with, or after it. -/
theorem ngOnInit_stream_suspense_free (α : Type)
    (inputs : DirectiveInputs α) :
    (ngOnInitRenderStream α inputs).countP
      (fun n => n.kind == RxNotificationKind.Suspense) = 0 ∧
    (ngOnInitRenderStream α inputs).countP
      (fun n => n.kind == RxNotificationKind.Next) = 1 ∧
    (ngOnInitRenderStream α inputs).length = 1 := by
  refine ⟨rfl, rfl, rfl⟩

/-- Modelled from the spec: context patching on view reuse by the
view/context manager of `createTemplateManager` (`@rx-angular/cdk/template`),
which is not part of the provided sources. Per spec 4.3 the active view's
context fields are patched in place from the incoming notification; per the
data model the flags track the notification state. -/
def patchViewContext {α : Type} (ctx : RxScheduleOnViewContext α)
    (n : RxNotification α) : RxScheduleOnViewContext α :=
  { ctx with
    scheduleOn := n.value
    implicit := n.value
    error := n.error
    complete := n.complete
    suspense := n.kind == RxNotificationKind.Suspense }

/-- An active embedded view held by the template manager: the template name it
was created from and its mutable context. -/
structure TMView (α : Type) where
  templateName : String
  context : RxScheduleOnViewContext α
  deriving DecidableEq, Repr

/-- The view/context manager's per-anchor state: the list of views currently
live at the anchor and a counter of every view ever created. -/
structure TMState (α : Type) where
  liveViews : List (TMView α)
  viewsCreated : Nat
  deriving DecidableEq, Repr

/-- The manager's state before the first notification: no view yet. -/
def initialTMState (α : Type) : TMState α :=
  { liveViews := [], viewsCreated := 0 }

/-- Modelled from the spec: one `render` step of the view/context manager of
`createTemplateManager` (`@rx-angular/cdk/template`), which is not part of the
provided sources. Per spec 4.3: resolve the template name; if no active view
exists or its name differs from the resolved name, dispose any existing view
and create a new one with a fresh context from `createViewContext`; otherwise
reuse the active view and patch its context in place. The name policy
`notificationToTemplateName` is taken from the directive source. -/
def renderStep {α : Type} (s : TMState α) (n : RxNotification α) :
    TMState α :=
  let name := resolveTemplate n
  match s.liveViews with
  | [] =>
      { liveViews := [{ templateName := name
                        context := createViewContext n.value }]
        viewsCreated := s.viewsCreated + 1 }
  | v :: rest =>
      if v.templateName = name then
        { s with
          liveViews := { v with context := patchViewContext v.context n }
            :: rest }
      else
        { liveViews := [{ templateName := name
                          context := createViewContext n.value }]
          viewsCreated := s.viewsCreated + 1 }

/-- Processing a whole notification sequence through the manager. -/
def renderMany {α : Type} (s : TMState α) (ns : List (RxNotification α)) :
    TMState α :=
  ns.foldl renderStep s

/-- The manager invariant after at least one notification: the views-created
counter equals `c` and exactly one view, created from the shared `nextTpl`
template, is live. -/
def goodTM {α : Type} (c : Nat) (s : TMState α) : Prop :=
  s.viewsCreated = c ∧
  ∃ v : TMView α, s.liveViews = [v] ∧
    v.templateName = RxScheduleOnTemplateNames.next

/-- One render step preserves the single-`nextTpl`-view invariant without
creating a view. -/
theorem renderStep_good {α : Type} (c : Nat) (s : TMState α)
    (n : RxNotification α) (h : goodTM c s) : goodTM c (renderStep s n) := by
  obtain ⟨hc, v, hv, hname⟩ := h
  have hres : resolveTemplate n = RxScheduleOnTemplateNames.next := by
    cases hk : n.kind <;>
      simp [resolveTemplate, notificationToTemplateName, hk]
  refine ⟨?_, ?_⟩
  · simp [renderStep, hv, hres, hname, hc]
  · refine ⟨{ v with context := patchViewContext v.context n }, ?_, hname⟩
    simp [renderStep, hv, hres, hname]

/-- Any run from an invariant state stays in the invariant. -/
theorem renderMany_good {α : Type} (c : Nat) (s : TMState α)
    (ns : List (RxNotification α)) (h : goodTM c s) :
    goodTM c (renderMany s ns) := by
  induction ns generalizing s with
  | nil => exact h
  | cons n rest ih =>
      exact ih (renderStep s n) (renderStep_good c s n h)

/-- The first notification establishes the invariant with one created view. -/
theorem renderStep_initial {α : Type} (n : RxNotification α) :
    goodTM 1 (renderStep (initialTMState α) n) := by
  have hres : resolveTemplate n = RxScheduleOnTemplateNames.next := by
    cases hk : n.kind <;>
      simp [resolveTemplate, notificationToTemplateName, hk]
  refine ⟨?_, ?_⟩
  · simp [renderStep, initialTMState]
  · refine ⟨{ templateName := resolveTemplate n
              context := createViewContext n.value }, ?_, hres⟩
    simp [renderStep, initialTMState]

/-- From the initial state, at most one view is ever live. -/
theorem renderMany_liveViews_le_one {α : Type}
    (ns : List (RxNotification α)) :
    ((renderMany (initialTMState α) ns).liveViews).length ≤ 1 := by
  cases ns with
  | nil => simp [renderMany, initialTMState]
  | cons n rest =>
      have h : goodTM 1 (renderMany (initialTMState α) (n :: rest)) := by
        have h0 := renderStep_initial n
        simpa [renderMany] using
          renderMany_good 1 (renderStep (initialTMState α) n) rest h0
      obtain ⟨-, v, hv, -⟩ := h
      simp [hv]

/-- Claim C3: for every nonempty sequence of Next notifications, exactly one
embedded view is created under the single shared-template configuration —
later notifications only patch the existing view's context — and at no point
of the run (after any prefix of the sequence) are two live views active for
the one anchor. -/
theorem single_view_per_next_sequence (α : Type)
    (ns : List (RxNotification α)) (hne : ns ≠ [])
    (_hkinds : ∀ n ∈ ns, n.kind = RxNotificationKind.Next) :
    (renderMany (initialTMState α) ns).viewsCreated = 1 ∧
    ((renderMany (initialTMState α) ns).liveViews).length = 1 ∧
    ∀ pre : List (RxNotification α), pre <+: ns →
      ((renderMany (initialTMState α) pre).liveViews).length ≤ 1 := by
  cases ns with
  | nil => exact absurd rfl hne
  | cons n rest =>
      have h : goodTM 1 (renderMany (initialTMState α) (n :: rest)) := by
        have h0 := renderStep_initial n
        simpa [renderMany] using
          renderMany_good 1 (renderStep (initialTMState α) n) rest h0
      obtain ⟨hc, v, hv, -⟩ := h
      refine ⟨hc, by simp [hv], fun pre _ => renderMany_liveViews_le_one pre⟩

/-- A Next notification carrying a concrete value, for the witness. -/
def mkNext {α : Type} (v : α) : RxNotification α :=
  { value := v
    hasValue := true
    kind := RxNotificationKind.Next
    error := false
    complete := false }

/-- Witness for claim C3 at the concrete sequence of two Next notifications
carrying 1 and 2: exactly one view is created. -/
theorem single_view_per_next_sequence_witness :
    (renderMany (initialTMState Nat) [mkNext 1, mkNext 2]).viewsCreated = 1 := by
  exact (single_view_per_next_sequence Nat [mkNext 1, mkNext 2]
    (by decide) (by decide)).1

/-- Modelled from the spec: one assignment to the directive's `strategy`
input. The setter `strategyHandler.next(strategyName)` accepts either a
static strategy name or a dynamic source of names (spec 4.5); a dynamic
source is represented by the sequence of names it emits. -/
inductive StrategyAssignment where
  | staticName (s : String)
  | dynamicSource (vals : List String)
  deriving DecidableEq, Repr

/-- The flat sequence of strategy names emitted into the handler's subject by
a sequence of assignments, in emission order: a static assignment emits its
name once, a dynamic source emits each of its values in order (each replacing
the current strategy name going forward, spec 4.5). -/
def emittedNames : List StrategyAssignment → List String
  | [] => []
  | StrategyAssignment.staticName s :: rest => s :: emittedNames rest
  | StrategyAssignment.dynamicSource vs :: rest => vs ++ emittedNames rest

/-- Modelled from the spec: a `ReplaySubject` with buffer size one
(`coerceAllFactory(() => new ReplaySubject(1))` in the directive source; the
subject class itself is an external collaborator). Its state is the latest
value pushed into it, if any. -/
structure ReplaySubjectOne where
  latest : Option String
  deriving DecidableEq, Repr

/-- Pushing a value into the replay subject replaces the buffered value. -/
def rsNext (_s : ReplaySubjectOne) (v : String) : ReplaySubjectOne :=
  { latest := some v }

/-- The handler's subject state after a sequence of strategy assignments. -/
def processAssignments (assigns : List StrategyAssignment) : ReplaySubjectOne :=
  (emittedNames assigns).foldl rsNext { latest := none }

/-- What a subscriber arriving now receives immediately from the replay
subject: the buffered latest value, if any. -/
def subscribeNow (s : ReplaySubjectOne) : Option String :=
  s.latest

/-- Folding pushes over the replay subject leaves the last pushed value in the
buffer, or the initial buffer when nothing was pushed. -/
theorem foldl_rsNext_latest (l : List String) (init : ReplaySubjectOne) :
    (l.foldl rsNext init).latest =
      match l.getLast? with
      | some v => some v
      | none => init.latest := by
  induction l generalizing init with
  | nil => rfl
  | cons x xs ih =>
      cases xs with
      | nil => simp [rsNext, ih]
      | cons y ys =>
          simpa [List.getLast?_cons_cons, rsNext] using ih (rsNext init x)

/-- Claim C5: the strategy selection stream has replay-of-latest semantics —
after any sequence of assignments (static names or values from dynamic
sources), a subscriber that subscribes now immediately receives the most
recently supplied strategy name, and a later assignment replaces the current
name going forward. -/
theorem strategyHandler_replays_latest (assigns : List StrategyAssignment) :
    subscribeNow (processAssignments assigns) =
      (emittedNames assigns).getLast? ∧
    ∀ s : String,
      subscribeNow (processAssignments
        (assigns ++ [StrategyAssignment.staticName s])) = some s := by
  constructor
  · rw [subscribeNow, processAssignments, foldl_rsNext_latest]
    cases (emittedNames assigns).getLast? <;> rfl
  · intro s
    have hemit : emittedNames (assigns ++ [StrategyAssignment.staticName s]) =
        emittedNames assigns ++ [s] := by
      induction assigns with
      | nil => rfl
      | cons a rest ih =>
          cases a <;> simp [emittedNames, ih]
    rw [subscribeNow, processAssignments, hemit, foldl_rsNext_latest]
    simp

/-- Modelled from the spec: an event at the render coordinator (spec 4.4) —
either a commit request with payload `v` (`scheduleCommit` for this anchor),
or the strategy's scheduled task firing and flushing the pending slot. -/
inductive CommitEvent (V : Type) where
  | request (v : V)
  | flush
  deriving DecidableEq, Repr

/-- Modelled from the spec: the render coordinator's per-anchor state — the
single coalescing slot holding at most one pending commit (a new request
overwrites it), and the list of commits that actually executed, in order. -/
structure CoordState (V : Type) where
  pending : Option V
  executed : List V
  deriving DecidableEq, Repr

/-- Modelled from the spec: one coordinator step (spec 4.4). A request
overwrites the pending slot (coalescing); a flush executes the pending
commit, if any, and clears the slot. -/
def coordStep {V : Type} (s : CoordState V) (e : CommitEvent V) :
    CoordState V :=
  match e with
  | CommitEvent.request v => { s with pending := some v }
  | CommitEvent.flush =>
      match s.pending with
      | some v => { pending := none, executed := s.executed ++ [v] }
      | none => s

/-- Running the coordinator over an event schedule from the empty state. -/
def runCoord {V : Type} (es : List (CommitEvent V)) : CoordState V :=
  es.foldl coordStep { pending := none, executed := [] }

/-- The payloads of all commit requests in a schedule, in order. -/
def requestsOf {V : Type} (es : List (CommitEvent V)) : List V :=
  es.filterMap (fun e =>
    match e with
    | CommitEvent.request v => some v
    | CommitEvent.flush => none)

/-- The observable effects of the subscription installed in `ngOnInit`: the
values emitted on the `rendered` output and the values passed to the
configured render-callback observer. -/
structure RenderedState (V : Type) where
  renderedEvents : List V
  observerCalls : List V
  deriving DecidableEq, Repr

/-- The subscriber body from `ngOnInit`:
`(n) => { this.rendered$.next(n); this._renderObserver?.next(n); }` — each
emission is forwarded once to the `rendered` output and, when a render
callback is configured, once to it. -/
def onRenderEmission {V : Type} (hasObserver : Bool) (s : RenderedState V)
    (n : V) : RenderedState V :=
  { renderedEvents := s.renderedEvents ++ [n]
    observerCalls :=
      if hasObserver then s.observerCalls ++ [n] else s.observerCalls }

/-- The total effect of the `ngOnInit` subscription over the emissions of the
`render` stream. -/
def ngOnInitForward {V : Type} (hasObserver : Bool) (emissions : List V) :
    RenderedState V :=
  emissions.foldl (onRenderEmission hasObserver)
    { renderedEvents := [], observerCalls := [] }

/-- The forwarding fold appends to both effect lists. -/
theorem ngOnInitForward_eq {V : Type} (hasObserver : Bool)
    (emissions : List V) :
    (ngOnInitForward hasObserver emissions).renderedEvents = emissions ∧
    (ngOnInitForward hasObserver emissions).observerCalls =
      if hasObserver then emissions else [] := by
  have key : ∀ (l : List V) (s : RenderedState V),
      (l.foldl (onRenderEmission hasObserver) s).renderedEvents =
        s.renderedEvents ++ l ∧
      (l.foldl (onRenderEmission hasObserver) s).observerCalls =
        if hasObserver then s.observerCalls ++ l else s.observerCalls := by
    intro l
    induction l with
    | nil => intro s; simp
    | cons x xs ih =>
        intro s
        obtain ⟨h1, h2⟩ := ih (onRenderEmission hasObserver s x)
        cases hasObserver <;>
          simp_all [onRenderEmission]
  obtain ⟨h1, h2⟩ := key emissions { renderedEvents := [], observerCalls := [] }
  cases hasObserver <;> simp_all [ngOnInitForward]

/-- Running the coordinator keeps executed-plus-pending a sublist of the
requests, so every executed commit traces back to a real request. -/
theorem runCoord_tracked {V : Type} (es : List (CommitEvent V)) :
    ∀ s : CoordState V,
      ((es.foldl coordStep s).executed ++
        (es.foldl coordStep s).pending.toList).Sublist
        (s.executed ++ s.pending.toList ++ requestsOf es) := by
  induction es with
  | nil => intro s; simp [requestsOf]
  | cons e rest ih =>
      intro s
      cases e with
      | request v =>
          have h1 := ih { s with pending := some v }
          have h3 : (s.executed ++ (some v : Option V).toList).Sublist
              (s.executed ++ s.pending.toList ++ [v]) := by
            have h2 : (s.executed ++ [v]).Sublist
                ((s.executed ++ s.pending.toList) ++ [v]) :=
              List.Sublist.append (by simp) (List.Sublist.refl [v])
            exact h2
          have hB : (s.executed ++ (some v : Option V).toList ++
              requestsOf rest).Sublist
              (s.executed ++ s.pending.toList ++ [v] ++ requestsOf rest) :=
            List.Sublist.append h3 (List.Sublist.refl _)
          have hC := h1.trans hB
          have hreq : requestsOf (CommitEvent.request v :: rest) =
              v :: requestsOf rest := rfl
          have hfold : (CommitEvent.request v :: rest).foldl coordStep s =
              rest.foldl coordStep { s with pending := some v } := rfl
          rw [hfold, hreq]
          simpa [List.append_assoc] using hC
      | flush =>
          cases hp : s.pending with
          | none =>
              have step : coordStep s CommitEvent.flush = s := by
                simp [coordStep, hp]
              have h1 := ih s
              have hfold : (CommitEvent.flush :: rest).foldl coordStep s =
                  rest.foldl coordStep s := by
                simp [step]
              have hreq : requestsOf (CommitEvent.flush :: rest) =
                  requestsOf rest := rfl
              rw [hfold, hreq]
              simpa [hp] using h1
          | some v =>
              have step : coordStep s CommitEvent.flush =
                  { pending := none, executed := s.executed ++ [v] } := by
                simp [coordStep, hp]
              have h1 := ih { pending := none, executed := s.executed ++ [v] }
              have hfold : (CommitEvent.flush :: rest).foldl coordStep s =
                  rest.foldl coordStep
                    { pending := none, executed := s.executed ++ [v] } := by
                simp [step]
              have hreq : requestsOf (CommitEvent.flush :: rest) =
                  requestsOf rest := rfl
              rw [hfold, hreq]
              simpa [hp, List.append_assoc] using h1

/-- Claim C6: for every schedule of commit requests and strategy flushes, the
`rendered` output emits exactly the sequence of commits that actually
executed (one event per executed commit, in order, with the same value), the
configured render-callback observer is invoked with exactly that same
sequence, and every executed commit is one of the requested payloads — a
request coalesced away before running produces no `rendered` event. -/
theorem rendered_once_per_executed_commit (V : Type)
    (es : List (CommitEvent V)) :
    (ngOnInitForward true (runCoord es).executed).renderedEvents =
      (runCoord es).executed ∧
    (ngOnInitForward true (runCoord es).executed).observerCalls =
      (runCoord es).executed ∧
    ((runCoord es).executed).Sublist (requestsOf es) := by
  obtain ⟨h1, h2⟩ := ngOnInitForward_eq true (runCoord es).executed
  refine ⟨h1, by simpa using h2, ?_⟩
  have h := runCoord_tracked es { pending := none, executed := [] }
  have h' : ((runCoord es).executed ++
      (runCoord es).pending.toList).Sublist (requestsOf es) := by
    simpa [runCoord] using h
  have hpre : ((runCoord es).executed).Sublist
      ((runCoord es).executed ++ (runCoord es).pending.toList) := by
    simp
  exact hpre.trans h'

/-- A heap object holding context bindings: an allocation identity tag plus
the property map (keys to values, in property order, no duplicate keys in a
well-formed object). Property assignment mutates `fields` and keeps `objId`;
only allocating a new object would change `objId`. -/
structure CtxObj (V : Type) where
  objId : Nat
  fields : List (String × V)
  deriving DecidableEq, Repr

/-- An embedded view reference exposing its context object, as read and
mutated by `updateViewContext` through `view.context[k] = ...`. -/
structure EmbeddedViewRef (V : Type) where
  context : CtxObj V
  deriving DecidableEq, Repr

/-- JavaScript property assignment `obj[k] = v` on the property map: an
existing binding for `k` is overwritten in place, a missing one is appended. -/
def setKey {V : Type} (m : List (String × V)) (k : String) (v : V) :
    List (String × V) :=
  match m with
  | [] => [(k, v)]
  | (k', v') :: rest =>
      if k' = k then (k, v) :: rest else (k', v') :: setKey rest k v

/-- The function `updateViewContext` from the directive source:
`Object.keys(context).forEach((k) => { view.context[k] = context[k]; })` —
every key of the supplied context record is assigned onto the view's existing
context object; the `value` parameter is not used. The context object is
mutated, never replaced, so its identity tag is untouched. -/
def updateViewContext {V : Type} (_value : V) (view : EmbeddedViewRef V)
    (context : List (String × V)) : EmbeddedViewRef V :=
  { view with
    context :=
      { view.context with
        fields := context.foldl (fun m kv => setKey m kv.1 kv.2)
          view.context.fields } }

/-- Looking up the key just assigned returns the assigned value. -/
theorem lookup_setKey_self {V : Type} (m : List (String × V)) (k : String)
    (v : V) : List.lookup k (setKey m k v) = some v := by
  induction m with
  | nil => simp [setKey, List.lookup]
  | cons p rest ih =>
      by_cases h : p.1 = k
      · simp [setKey, h, List.lookup]
      · have hb : (k == p.1) = false := by
          rw [beq_eq_false_iff_ne]
          exact fun hh => h hh.symm
        simp [setKey, h, List.lookup, hb, ih]

/-- Assigning one key leaves every other key's lookup unchanged. -/
theorem lookup_setKey_other {V : Type} (m : List (String × V)) (k k' : String)
    (v : V) (hne : k' ≠ k) :
    List.lookup k' (setKey m k v) = List.lookup k' m := by
  have hb : (k' == k) = false := by
    rw [beq_eq_false_iff_ne]
    exact hne
  induction m with
  | nil => simp [setKey, List.lookup, hb]
  | cons p rest ih =>
      by_cases h : p.1 = k
      · subst h
        simp [setKey, List.lookup, hb]
      · simp [setKey, h, List.lookup, ih]

/-- Folding assignments for keys that do not include `k` leaves `k`'s lookup
unchanged. -/
theorem lookup_foldl_setKey_absent {V : Type} (ctx : List (String × V))
    (k : String) (habs : ∀ v : V, (k, v) ∉ ctx) :
    ∀ m : List (String × V),
      List.lookup k (ctx.foldl (fun m kv => setKey m kv.1 kv.2) m) =
        List.lookup k m := by
  induction ctx with
  | nil => intro m; rfl
  | cons kv rest ih =>
      intro m
      have hk : k ≠ kv.1 := by
        intro h
        apply habs kv.2
        have hkv : (k, kv.2) = kv := by
          cases kv with
          | mk a b => cases h; rfl
        rw [hkv]
        exact List.mem_cons_self _ _
      have habs' : ∀ v : V, (k, v) ∉ rest := by
        intro v hv
        exact habs v (List.mem_cons_of_mem _ hv)
      have h1 := ih habs' (setKey m kv.1 kv.2)
      have h2 := lookup_setKey_other m kv.1 k kv.2 hk
      simp only [List.foldl_cons]
      exact h1.trans h2

/-- After folding the assignments of a duplicate-free context, every key of
that context looks up to its context value. -/
theorem lookup_foldl_setKey_present {V : Type} (ctx : List (String × V))
    (k : String) (v : V) (hmem : (k, v) ∈ ctx)
    (hnd : (ctx.map Prod.fst).Nodup) :
    ∀ m : List (String × V),
      List.lookup k (ctx.foldl (fun m kv => setKey m kv.1 kv.2) m) = some v := by
  induction ctx with
  | nil => cases hmem
  | cons kv rest ih =>
      intro m
      have hnd' : kv.1 ∉ rest.map Prod.fst ∧ (rest.map Prod.fst).Nodup := by
        rw [List.map_cons] at hnd
        exact List.nodup_cons.mp hnd
      rcases List.mem_cons.mp hmem with heq | htail
      · subst heq
        have habs : ∀ v' : V, (k, v') ∉ rest := by
          intro v' hv'
          exact hnd'.1 (List.mem_map.mpr ⟨(k, v'), hv', rfl⟩)
        have h1 := lookup_foldl_setKey_absent rest k habs (setKey m k v)
        have h2 := lookup_setKey_self m k v
        simp only [List.foldl_cons]
        exact h1.trans h2
      · simp only [List.foldl_cons]
        exact ih htail hnd'.2 (setKey m kv.1 kv.2)

/-- Claim C7: `updateViewContext` patches the existing view context in place —
for every value, view and duplicate-free supplied context record, after the
call every key of the supplied context looks up to the supplied value, the
view's context object identity is unchanged (no new context object is
allocated), and every key absent from the supplied context keeps the value it
had in the view's context. -/
theorem updateViewContext_patches_in_place (V : Type) (value : V)
    (view : EmbeddedViewRef V) (ctx : List (String × V))
    (hnd : (ctx.map Prod.fst).Nodup) :
    (updateViewContext value view ctx).context.objId = view.context.objId ∧
    (∀ k v, (k, v) ∈ ctx →
      List.lookup k ((updateViewContext value view ctx).context.fields) =
        some v) ∧
    (∀ k, (∀ v : V, (k, v) ∉ ctx) →
      List.lookup k ((updateViewContext value view ctx).context.fields) =
        List.lookup k view.context.fields) := by
  refine ⟨rfl, ?_, ?_⟩
  · intro k v hmem
    exact lookup_foldl_setKey_present ctx k v hmem hnd view.context.fields
  · intro k habs
    exact lookup_foldl_setKey_absent ctx k habs view.context.fields

/-- Key strings used by the concrete witness. -/
def keyA : String := "a"

/-- A second key string used by the concrete witness. -/
def keyB : String := "b"

/-- A concrete view for the witness: context object 7 with bindings
`a = 1`, `b = 2`. -/
def witnessView : EmbeddedViewRef Nat :=
  { context := { objId := 7, fields := [(keyA, 1), (keyB, 2)] } }

/-- A concrete supplied context for the witness: `b = 9`. -/
def witnessCtx : List (String × Nat) :=
  [(keyB, 9)]

/-- Witness for claim C7 at a concrete view and context: the object identity
stays 7, the patched key reads back the new value, and the untouched key
keeps its old value. -/
theorem updateViewContext_patches_in_place_witness :
    (updateViewContext 0 witnessView witnessCtx).context.objId = 7 ∧
    List.lookup keyB ((updateViewContext 0 witnessView witnessCtx).context.fields) =
      some 9 ∧
    List.lookup keyA ((updateViewContext 0 witnessView witnessCtx).context.fields) =
      some 1 := by
  have h := updateViewContext_patches_in_place Nat 0 witnessView witnessCtx
    (by decide)
  refine ⟨h.1, h.2.1 keyB 9 (by decide), ?_⟩
  have habs : ∀ v : Nat, (keyA, v) ∉ witnessCtx := by
    intro v hv
    have hfst : keyA = keyB := by
      simpa [witnessCtx] using congrArg Prod.fst (List.mem_singleton.mp hv)
    exact absurd hfst (by decide)
  have hkeep := h.2.2 keyA habs
  have hrhs : List.lookup keyA witnessView.context.fields = some 1 := by
    decide
  exact hkeep.trans hrhs

/-- The rxjs `Subscription` held by the directive, an external collaborator:
its state is whether it is closed and how many times its teardown logic (the
unsubscription of the added inner render subscription) has run. Per the
reactive-stream contract assumed by the spec (and rxjs's implementation),
`unsubscribe` runs the teardown and closes the subscription the first time,
and is a no-op on a closed subscription. -/
structure Subscription where
  closed : Bool
  teardownRuns : Nat
  deriving DecidableEq, Repr

/-- The operation `Subscription.unsubscribe`: idempotent teardown per the
collaborator
contract — running it on a closed subscription changes nothing. -/
def Subscription.unsubscribe (s : Subscription) : Subscription :=
  if s.closed then s else { closed := true, teardownRuns := s.teardownRuns + 1 }

/-- The directive state relevant to teardown: its `subscription` field. -/
structure DirectiveState where
  subscription : Subscription
  deriving DecidableEq, Repr

/-- The hook `ngOnDestroy` from the directive source:
`this.subscription.unsubscribe()`. -/
def ngOnDestroy (d : DirectiveState) : DirectiveState :=
  { d with subscription := d.subscription.unsubscribe }

/-- Claim C9: tearing down the directive is idempotent — invoking
`ngOnDestroy` a second time yields exactly the state after the first call (in
particular the teardown logic does not run again), and, being a total
function, it raises no error. -/
theorem ngOnDestroy_idempotent (d : DirectiveState) :
    ngOnDestroy (ngOnDestroy d) = ngOnDestroy d := by
  cases hd : d.subscription.closed <;>
    simp [ngOnDestroy, Subscription.unsubscribe, hd]

end ScheduleOn
